import Mathlib

/-! Location popup controller (editor/locpopup.go)

A shallow embedding of `Locpopup.update` and of the code it relies on, followed by the
properties of the update pass.

Modelling conventions

* A Go `interface{}` value decoded from the host is a `Value`; a
  `map[string]interface{}` is an association list, and indexing a missing key gives `nil`
  as in Go.
* Go's `int` is a 64-bit two's-complement integer: it is an `Int`, and the one
  subtraction of the pass is wrapped explicitly with `wrapInt`.  The two counters only
  ever count entries of a slice, so they cannot overflow and are natural numbers.
* `reflectToInt` is called by the file but defined elsewhere in the package: every
  definition takes it as a parameter.
* `sort.Sort` is Go's standard library: every definition takes a `Sorter`, which is any
  function that meets the documented contract of `sort.Sort` (a permutation of the
  input, ordered by `Less`; no promise of stability).
* The effects of a pass (`LocpopupSignal`, `statusline.lint.redraw`) are collected in a
  trace; a failed type assertion is recorded as `panicked`, after the deferred function
  has run, as Go does.  The mutex is not modelled.
-/

namespace Editor

/-! ## Data model -/

/-- A Go `interface{}` value as decoded from a reply of the host. -/
inductive Value where
  | nil
  | bool (b : Bool)
  | int64 (i : Int)
  | uint64 (n : Nat)
  | str (s : String)
  deriving DecidableEq, Repr

/-- One entry of the location list: a Go `map[string]interface{}`. -/
abbrev Loc := List (String × Value)

/-- The Go index expression `loc[key]`: the zero value `nil` when the key is missing. -/
def index (loc : Loc) (key : String) : Value :=
  match loc.lookup key with
  | some v => v
  | none => Value.nil

/-- The Go type assertion `v.(string)`: `none` stands for the run-time panic. -/
def asString : Value → Option String
  | Value.str s => some s
  | _ => none

/-- The value of a Go `int` expression: the mathematical result wrapped to 64 bits. -/
def wrapInt (x : Int) : Int :=
  (x + 9223372036854775808) % 18446744073709551616 - 9223372036854775808

/-- The fields `typeText`, `contentText` and `shown` of the struct `Locpopup`. -/
structure Locpopup where
  typeText : String
  contentText : String
  shown : Bool
  deriving DecidableEq, Repr

/-- The replies of the host to the six calls of one pass; `none` is a call that returns
an error.  `windowCursor` is the `[2]int` of `WindowCursor`: line, then column. -/
structure Host where
  currentBuffer : Option Nat
  buftype : Option String
  mode : Option String
  currentWindow : Option Nat
  windowCursor : Option (Int × Int)
  getloclist : Option (List Loc)

/-- What a pass does to the outside: `l.ws.signal.LocpopupSignal()` and
`l.ws.statusline.lint.redraw(errors, warnings)`. -/
inductive Effect where
  | locpopupSignal
  | lintRedraw (errors warnings : Nat)
  deriving DecidableEq, Repr

/-- The result of one pass: the fields of the popup, the effects in the order they
happen, and whether the pass ended in a panic. -/
structure Outcome where
  state : Locpopup
  effects : List Effect
  panicked : Bool
  deriving DecidableEq, Repr

/-! ## Sorting by column -/

/-- The method `ByCol.Less`, on the two elements at the compared positions. -/
def Less (reflectToInt : Value → Int) (a b : Loc) : Bool :=
  decide (reflectToInt (index a "col") > reflectToInt (index b "col"))

/-- The contract of `sort.Sort`: the result is a permutation of the input in which no
later element is `Less` than an earlier one.  The order of elements that compare equal
is left open. -/
structure Sorter (less : Loc → Loc → Bool) where
  sort : List Loc → List Loc
  perm : ∀ l, (sort l).Perm l
  ordered : ∀ l, (sort l).Pairwise (fun a b => less b a = false)

/-- One round of insertion sort: `x` goes in front of the first element it is `Less`
than. -/
def insertByLess (less : Loc → Loc → Bool) (x : Loc) : List Loc → List Loc
  | [] => [x]
  | y :: ys => if less x y then x :: y :: ys else y :: insertByLess less x ys

/-- Insertion sort, the algorithm `sort.Sort` runs on a short slice: the elements are
inserted from left to right into the ordered part. -/
def insertionSort (less : Loc → Loc → Bool) (l : List Loc) : List Loc :=
  l.foldl (fun acc x => insertByLess less x acc) []

/-! ## The update pass -/

/-- Lines 104-138 of `update`: the queries and the two guards.  `none` is any of the
early returns; otherwise the cursor position and the location list. -/
def guards (h : Host) : Option ((Int × Int) × List Loc) :=
  match h.currentBuffer with
  | none => none
  | some _ =>
    match h.buftype with
    | none => none
    | some buftype =>
      if buftype = "terminal" then none
      else
        match h.mode with
        | none => none
        | some mode =>
          if mode ≠ "n" then none
          else
            match h.currentWindow with
            | none => none
            | some _ =>
              match h.windowCursor with
              | none => none
              | some pos =>
                match h.getloclist with
                | none => none
                | some result => some (pos, result)

/-- The three variables the counting loop updates: `errors`, `warnings`, `locs`. -/
structure Tally where
  errors : Nat
  warnings : Nat
  locs : List Loc
  deriving DecidableEq, Repr

/-- The body of the loop of lines 143-159 for one entry; `none` is the panic of
`loc["type"].(string)`. -/
def tallyStep (reflectToInt : Value → Int) (line : Int) (acc : Tally) (loc : Loc) :
    Option Tally :=
  let lnumInterface := index loc "lnum"
  if lnumInterface = Value.nil then some acc
  else
    let lnum := reflectToInt lnumInterface
    let locs := if lnum = line then acc.locs ++ [loc] else acc.locs
    match asString (index loc "type") with
    | none => none
    | some locType =>
      if locType = "E" then some ⟨acc.errors + 1, acc.warnings, locs⟩
      else if locType = "W" then some ⟨acc.errors, acc.warnings + 1, locs⟩
      else some ⟨acc.errors, acc.warnings, locs⟩

/-- The loop of lines 143-159 over the rest of the list. -/
def tallyLoop (reflectToInt : Value → Int) (line : Int) : Tally → List Loc → Option Tally
  | acc, [] => some acc
  | acc, loc :: rest =>
    match tallyStep reflectToInt line acc loc with
    | none => none
    | some acc1 => tallyLoop reflectToInt line acc1 rest

/-- Lines 140-159: the counts and the entries of the cursor's line. -/
def aggregate (reflectToInt : Value → Int) (line : Int) (result : List Loc) : Option Tally :=
  tallyLoop reflectToInt line ⟨0, 0, []⟩ result

/-- The condition of line 169, `pos[1] >= reflectToInt(loc["col"])-1`. -/
def scanStop (reflectToInt : Value → Int) (col : Int) (loc : Loc) : Bool :=
  decide (col ≥ wrapInt (reflectToInt (index loc "col") - 1))

/-- The loop of lines 168-172: the variable `loc` after the loop, from its value
before it. -/
def scan (reflectToInt : Value → Int) (col : Int) : Loc → List Loc → Loc
  | cur, [] => cur
  | _, x :: xs => if scanStop reflectToInt col x then x else scan reflectToInt col x xs

/-- Lines 161-172: no candidate for an empty `locs`; otherwise `locs` is sorted when
it has more than one element and scanned. -/
def selector (reflectToInt : Value → Int) (S : Sorter (Less reflectToInt)) (col : Int)
    (locs : List Loc) : Option Loc :=
  if locs.length = 0 then none
  else
    let sorted := if locs.length > 1 then S.sort locs else locs
    some (scan reflectToInt col [] sorted)

/-- The deferred function of lines 97-103, run with the final value of the local
`shown`. -/
def deferred (l : Locpopup) (shown : Bool) (effects : List Effect) (panicked : Bool) :
    Outcome :=
  if !shown then
    ⟨{ l with shown := false }, effects ++ [Effect.locpopupSignal], panicked⟩
  else ⟨l, effects, panicked⟩

/-- The method `Locpopup.update` (its argument is not used). -/
def update (reflectToInt : Value → Int) (S : Sorter (Less reflectToInt)) (h : Host)
    (l : Locpopup) : Outcome :=
  match guards h with
  | none => deferred l false [] false
  | some (pos, result) =>
    match aggregate reflectToInt pos.1 result with
    | none => deferred l false [] true
    | some t =>
      let effects := [Effect.lintRedraw t.errors t.warnings]
      match selector reflectToInt S pos.2 t.locs with
      | none => deferred l false effects false
      | some loc =>
        match asString (index loc "type") with
        | none => deferred l false effects true
        | some locType =>
          match asString (index loc "text") with
          | none => deferred l false effects true
          | some text =>
            if locType ≠ l.typeText ∨ text ≠ l.contentText ∨ true ≠ l.shown then
              deferred ⟨locType, text, true⟩ true (effects ++ [Effect.locpopupSignal]) false
            else deferred l true effects false

/-- The method `Locpopup.handle`: nothing happens on an empty argument list, on a first
argument that is not a string (the checked assertion `args[0].(string)`), and on an
event other than "update"; otherwise `update` runs (it ignores `args[1:]`). -/
def handle (reflectToInt : Value → Int) (S : Sorter (Less reflectToInt)) (h : Host)
    (l : Locpopup) (args : List Value) : Outcome :=
  match args with
  | [] => ⟨l, [], false⟩
  | first :: _ =>
    match asString first with
    | none => ⟨l, [], false⟩
    | some event =>
      if event = "update" then update reflectToInt S h l
      else ⟨l, [], false⟩

/-- The number of change notifications (`LocpopupSignal`) in a trace. -/
def notifications (effects : List Effect) : Nat :=
  effects.count Effect.locpopupSignal

/-- An entry is on the cursor's line when the loop of `update` appends it to `locs`:
its `lnum` is there and converts to the line of the cursor. -/
def onLine (reflectToInt : Value → Int) (line : Int) (loc : Loc) : Bool :=
  decide (index loc "lnum" ≠ Value.nil) && decide (reflectToInt (index loc "lnum") = line)

/-- The entries of the location list on the cursor's line, in the order of the list. -/
def sameLine (reflectToInt : Value → Int) (line : Int) (result : List Loc) : List Loc :=
  result.filter (onLine reflectToInt line)

/-- The column of an entry, as `update` and `ByCol.Less` read it. -/
def column (reflectToInt : Value → Int) (loc : Loc) : Int :=
  reflectToInt (index loc "col")

/-- The values a Go `int` can hold. -/
def isInt (x : Int) : Prop :=
  -9223372036854775808 ≤ x ∧ x ≤ 9223372036854775807

/-- Lines 164-166: the order in which the loop of lines 168-172 goes through `locs`. -/
def scanOrder (reflectToInt : Value → Int) (S : Sorter (Less reflectToInt))
    (locs : List Loc) : List Loc :=
  if locs.length > 1 then S.sort locs else locs

/-- The entries of a list that have column `c`, in the order of the list. -/
def withColumn (reflectToInt : Value → Int) (c : Int) (locs : List Loc) : List Loc :=
  locs.filter (fun e => decide (column reflectToInt e = c))

/-! ## A second sort that meets the contract -/

/-- The exchanges of a gap pass: each element of `back` is compared with the element of
`front` at the same offset and the two are exchanged when the later one is `Less`. -/
def gapSwap (less : Loc → Loc → Bool) : List Loc → List Loc → List Loc × List Loc
  | f :: fs, b :: bs =>
    if less b f then (b :: (gapSwap less fs bs).1, f :: (gapSwap less fs bs).2)
    else (f :: (gapSwap less fs bs).1, b :: (gapSwap less fs bs).2)
  | fs, bs => (fs, bs)

/-- One pass with gap 6.  On a slice of at most 12 elements this is the loop
`for i := 6; i < n; i++ { if Less(i, i-6) { Swap(i, i-6) } }`, whose exchanges touch
every position at most once. -/
def gapPass (less : Loc → Loc → Bool) (l : List Loc) : List Loc :=
  (gapSwap less (l.take 6) (l.drop 6)).1 ++ (gapSwap less (l.take 6) (l.drop 6)).2

/-- A pass with gap 6 followed by insertion sort: the way the quicksort of older
versions of Go's `sort` package finishes a slice of at most 12 elements. -/
def gapInsertionSort (less : Loc → Loc → Bool) (l : List Loc) : List Loc :=
  insertionSort less (gapPass less l)

/-! ## A conversion to `int`, for evaluation -/

/-- Modelled from the spec: `reflectToInt` is defined outside `locpopup.go`.  The spec
types the line and the column of an entry as integers, so an integer of either
signedness converts to the `int` of the same bits and anything else to 0. -/
def reflectToIntModel : Value → Int
  | Value.int64 i => wrapInt i
  | Value.uint64 n => wrapInt n
  | _ => 0

/-! ## What the properties count -/

/-- The entry carries a line number: the loop of `update` does not skip it. -/
def hasLnum (loc : Loc) : Bool :=
  decide (index loc "lnum" ≠ Value.nil)

/-- The category of the entry is the string `c`. -/
def hasCategory (c : String) (loc : Loc) : Bool :=
  decide (index loc "type" = Value.str c)

/-- The number of entries that carry a line number and have category `c`. -/
def countCategory (c : String) (result : List Loc) : Nat :=
  result.countP (fun loc => hasLnum loc && hasCategory c loc)

/-- The number of entries that carry a line number and have a category other than
"E" and "W". -/
def countOther (result : List Loc) : Nat :=
  result.countP (fun loc => hasLnum loc && !hasCategory "E" loc && !hasCategory "W" loc)

/-! ## Inputs of the examples -/

/-- A well-formed entry of the location list, with the four keys the pass reads. -/
def entry (lnum col : Int) (type text : String) : Loc :=
  [("lnum", Value.int64 lnum), ("col", Value.int64 col), ("type", Value.str type),
   ("text", Value.str text)]

/-- A host in a normal buffer and in normal mode, with the given cursor position and
location list. -/
def normalHost (line col : Int) (result : List Loc) : Host :=
  ⟨some 1, some "", some "n", some 1000, some (line, col), some result⟩

/-- A host whose current buffer is a terminal. -/
def terminalHost : Host :=
  ⟨some 1, some "terminal", some "n", some 1000, some (1, 0), some [entry 1 1 "E" "bad"]⟩

/-- A host in insert mode. -/
def insertModeHost : Host :=
  ⟨some 1, some "", some "i", some 1000, some (1, 0), some [entry 1 1 "E" "bad"]⟩

/-- The three same-line entries of the tie-break example: columns 10, 5 and 2. -/
def tieBreakList : List Loc :=
  [entry 1 10 "E" "a", entry 1 5 "W" "b", entry 1 2 "E" "c"]

/-- The two same-line entries of the fallback example: columns 10 and 8. -/
def fallbackList : List Loc :=
  [entry 1 10 "E" "a", entry 1 8 "W" "b"]

/-- The two same-line entries of the nearest-entry example: columns 10 and 5. -/
def nearestList : List Loc :=
  [entry 1 10 "E" "a", entry 1 5 "W" "b"]

/-- A list with an error, a warning, an entry of another category and an entry without
a line number. -/
def mixedList : List Loc :=
  [entry 1 1 "E" "a", entry 2 3 "W" "b", entry 2 5 "I" "c",
   [("type", Value.str "E"), ("text", Value.str "x")]]

/-- The entry of the failing input of C9: a line number, a column and a text, but no
category. -/
def untypedEntry : Loc :=
  [("lnum", Value.int64 1), ("col", Value.int64 1), ("text", Value.str "x")]

/-- The single-entry example followed by an entry of line 5 that has a column and a
text but no category. -/
def singleWithUntyped : List Loc :=
  [entry 3 4 "E" "bad",
   [("lnum", Value.int64 5), ("col", Value.int64 1), ("text", Value.str "x")]]

/-- Seven entries of line 1: six at column 5, then one at column 9. -/
def sevenList : List Loc :=
  [entry 1 5 "E" "a", entry 1 5 "E" "b", entry 1 5 "E" "c", entry 1 5 "E" "d",
   entry 1 5 "E" "e", entry 1 5 "E" "f", entry 1 9 "W" "g"]

/-! ## The conversion model -/

/-- The conversion model stays within the range of `int`. -/
theorem reflectToIntModel_isInt (v : Value) : isInt (reflectToIntModel v) := by
  unfold isInt
  cases v <;> simp only [reflectToIntModel, wrapInt] <;> omega

/-! ## Insertion sort meets the contract of `sort.Sort` -/

theorem insertByLess_perm (less : Loc → Loc → Bool) (x : Loc) (l : List Loc) :
    (insertByLess less x l).Perm (x :: l) := by
  induction l with
  | nil => exact List.Perm.refl _
  | cons y ys ih =>
    simp only [insertByLess]
    split
    · exact List.Perm.refl _
    · exact (List.Perm.cons y ih).trans (List.Perm.swap x y ys)

theorem foldl_insertByLess_perm (less : Loc → Loc → Bool) (l : List Loc) :
    ∀ acc, (l.foldl (fun acc x => insertByLess less x acc) acc).Perm (l ++ acc) := by
  induction l with
  | nil => intro acc; exact List.Perm.refl _
  | cons x xs ih =>
    intro acc
    simp only [List.foldl_cons, List.cons_append]
    exact (ih _).trans
      (((insertByLess_perm less x acc).append_left xs).trans List.perm_middle)

theorem insertionSort_perm (less : Loc → Loc → Bool) (l : List Loc) :
    (insertionSort less l).Perm l := by
  have h := foldl_insertByLess_perm less l []
  simpa [insertionSort] using h

theorem Less_eq_false_iff (r : Value → Int) (a b : Loc) :
    Less r b a = false ↔ column r b ≤ column r a := by
  simp [Less, column]

theorem insertByLess_ordered (r : Value → Int) (x : Loc) (l : List Loc)
    (h : l.Pairwise (fun a b => Less r b a = false)) :
    (insertByLess (Less r) x l).Pairwise (fun a b => Less r b a = false) := by
  induction l with
  | nil => simp [insertByLess]
  | cons y ys ih =>
    have hy := List.pairwise_cons.mp h
    simp only [insertByLess]
    split
    · rename_i hlt
      refine List.pairwise_cons.mpr ⟨?_, h⟩
      intro z hz
      have hxy : column r y < column r x := by simpa [Less, column] using hlt
      rcases List.mem_cons.mp hz with rfl | hz
      · exact (Less_eq_false_iff r _ _).mpr (le_of_lt hxy)
      · have := (Less_eq_false_iff r _ _).mp (hy.1 z hz)
        exact (Less_eq_false_iff r _ _).mpr (by omega)
    · rename_i hlt
      refine List.pairwise_cons.mpr ⟨?_, ih hy.2⟩
      intro z hz
      have hz1 : z ∈ x :: ys := (insertByLess_perm (Less r) x ys).subset hz
      rcases List.mem_cons.mp hz1 with rfl | hz2
      · simpa using hlt
      · exact hy.1 z hz2

theorem foldl_insertByLess_ordered (r : Value → Int) (l : List Loc) :
    ∀ acc, acc.Pairwise (fun a b => Less r b a = false) →
      (l.foldl (fun acc x => insertByLess (Less r) x acc) acc).Pairwise
        (fun a b => Less r b a = false) := by
  induction l with
  | nil => intro acc h; exact h
  | cons x xs ih =>
    intro acc h
    simp only [List.foldl_cons]
    exact ih _ (insertByLess_ordered r x acc h)

/-- Insertion sort meets the contract of `sort.Sort` for `ByCol`. -/
def goSorter (reflectToInt : Value → Int) : Sorter (Less reflectToInt) where
  sort := insertionSort (Less reflectToInt)
  perm := insertionSort_perm (Less reflectToInt)
  ordered := fun l => foldl_insertByLess_ordered reflectToInt l [] List.Pairwise.nil

theorem gapSwap_perm (less : Loc → Loc → Bool) :
    ∀ (fs bs : List Loc),
      ((gapSwap less fs bs).1 ++ (gapSwap less fs bs).2).Perm (fs ++ bs) := by
  intro fs
  induction fs with
  | nil =>
    intro bs
    simp [gapSwap]
  | cons f fs ih =>
    intro bs
    cases bs with
    | nil => simp [gapSwap]
    | cons b bs =>
      have h := ih bs
      rw [gapSwap]
      split
      · simp only [List.cons_append]
        have h1 : ((gapSwap less fs bs).1 ++ f :: (gapSwap less fs bs).2).Perm
            (f :: (fs ++ bs)) := List.perm_middle.trans (List.Perm.cons f h)
        have h2 : (f :: (fs ++ b :: bs)).Perm (b :: f :: (fs ++ bs)) :=
          (List.Perm.cons f List.perm_middle).trans (List.Perm.swap b f _)
        exact (List.Perm.cons b h1).trans h2.symm
      · simp only [List.cons_append]
        exact List.Perm.cons f
          (List.perm_middle.trans ((List.Perm.cons b h).trans List.perm_middle.symm))

theorem gapPass_perm (less : Loc → Loc → Bool) (l : List Loc) :
    (gapPass less l).Perm l := by
  have h := gapSwap_perm less (l.take 6) (l.drop 6)
  rw [List.take_append_drop] at h
  exact h

/-- A gap pass followed by insertion sort meets the contract of `sort.Sort` for
`ByCol`. -/
def gapSorter (reflectToInt : Value → Int) : Sorter (Less reflectToInt) where
  sort := gapInsertionSort (Less reflectToInt)
  perm := fun l =>
    (insertionSort_perm (Less reflectToInt) _).trans (gapPass_perm (Less reflectToInt) l)
  ordered := fun l =>
    foldl_insertByLess_ordered reflectToInt (gapPass (Less reflectToInt) l) []
      List.Pairwise.nil

/-! ## The counting loop -/

theorem tallyLoop_locs (r : Value → Int) (line : Int) (result : List Loc) :
    ∀ acc t, tallyLoop r line acc result = some t →
      t.locs = acc.locs ++ sameLine r line result := by
  induction result with
  | nil =>
    intro acc t h
    simp only [tallyLoop, Option.some.injEq] at h
    simp [sameLine, ← h]
  | cons loc rest ih =>
    intro acc t h
    simp only [tallyLoop] at h
    cases hstep : tallyStep r line acc loc with
    | none => simp [hstep] at h
    | some acc1 =>
      rw [hstep] at h
      have h1 := ih acc1 t h
      have h2 : acc1.locs = acc.locs ++ sameLine r line [loc] := by
        unfold tallyStep at hstep
        simp only at hstep
        by_cases hn : index loc "lnum" = Value.nil
        · simp only [hn, if_true, Option.some.injEq] at hstep
          simp [sameLine, onLine, hn, ← hstep]
        · simp only [hn, if_false] at hstep
          cases hty : asString (index loc "type") with
          | none => simp [hty] at hstep
          | some locType =>
            rw [hty] at hstep
            simp only at hstep
            by_cases hl : r (index loc "lnum") = line
            · split_ifs at hstep <;>
                simp only [Option.some.injEq] at hstep <;>
                simp [sameLine, onLine, hn, hl, ← hstep]
            · split_ifs at hstep <;>
                simp only [Option.some.injEq] at hstep <;>
                simp [sameLine, onLine, hn, hl, ← hstep]
      rw [h1, h2]
      simp only [sameLine, List.filter_cons, List.filter_nil, List.append_assoc]
      split <;> simp

/-- When the counting loop completes, `locs` holds the entries of the cursor's line. -/
theorem aggregate_locs (r : Value → Int) (line : Int) (result : List Loc) (t : Tally)
    (h : aggregate r line result = some t) : t.locs = sameLine r line result := by
  have := tallyLoop_locs r line result ⟨0, 0, []⟩ t h
  simpa using this

/-! ## The scan -/

theorem scanStop_imp (r : Value → Int) (col : Int) (hr : ∀ v, isInt (r v))
    (x : Loc) (h : scanStop r col x = true) : col ≥ column r x - 1 := by
  have hx := hr (index x "col")
  simp only [scanStop, wrapInt, decide_eq_true_eq] at h
  simp only [isInt] at hx
  simp only [column]
  omega

theorem column_min_of_not_scanStop (r : Value → Int) (col : Int) (hr : ∀ v, isInt (r v))
    (x : Loc) (h : ¬ scanStop r col x = true) (hm : col ≥ column r x - 1) :
    column r x = -9223372036854775808 := by
  have hx := hr (index x "col")
  simp only [scanStop, wrapInt, decide_eq_true_eq] at h
  simp only [isInt] at hx
  simp only [column] at hm ⊢
  omega

theorem scan_cons_mem (r : Value → Int) (col : Int) :
    ∀ (xs : List Loc) (cur x : Loc), scan r col cur (x :: xs) ∈ x :: xs := by
  intro xs
  induction xs with
  | nil =>
    intro cur x
    simp [scan]
  | cons y ys ih =>
    intro cur x
    rw [scan]
    split
    · exact List.mem_cons_self _ _
    · exact List.mem_cons_of_mem _ (ih x y)

theorem scan_reached (r : Value → Int) (col : Int) (hr : ∀ v, isInt (r v)) :
    ∀ (xs : List Loc) (cur x : Loc),
      (x :: xs).Pairwise (fun a b => column r b ≤ column r a) →
      (∃ e ∈ x :: xs, col ≥ column r e - 1) →
      col ≥ column r (scan r col cur (x :: xs)) - 1 ∧
        ∀ e ∈ x :: xs, col ≥ column r e - 1 →
          column r e ≤ column r (scan r col cur (x :: xs)) := by
  intro xs
  induction xs with
  | nil =>
    intro cur x _ hex
    obtain ⟨e, he, hm⟩ := hex
    have hex1 : e = x := by simpa using he
    subst hex1
    have hs : scan r col cur [e] = e := by simp [scan]
    rw [hs]
    refine ⟨hm, ?_⟩
    intro e1 he1 _
    have : e1 = e := by simpa using he1
    rw [this]
  | cons y ys ih =>
    intro cur x hp hex
    have hpx := List.pairwise_cons.mp hp
    rw [scan]
    split
    · rename_i hstop
      refine ⟨scanStop_imp r col hr x hstop, ?_⟩
      intro e he _
      rcases List.mem_cons.mp he with rfl | he1
      · exact le_refl _
      · exact hpx.1 e he1
    · rename_i hstop
      have hex1 : ∃ e ∈ y :: ys, col ≥ column r e - 1 := by
        obtain ⟨e, he, hm⟩ := hex
        rcases List.mem_cons.mp he with rfl | he1
        · have hmin := column_min_of_not_scanStop r col hr e hstop hm
          have hy := hpx.1 y (List.mem_cons_self _ _)
          refine ⟨y, List.mem_cons_self _ _, ?_⟩
          omega
        · exact ⟨e, he1, hm⟩
      have h := ih x y hpx.2 hex1
      refine ⟨h.1, ?_⟩
      intro e he hm
      rcases List.mem_cons.mp he with rfl | he1
      · have hmin := column_min_of_not_scanStop r col hr e hstop hm
        have hq := hr (index (scan r col e (y :: ys)) "col")
        simp only [isInt] at hq
        simp only [column] at hmin ⊢
        omega
      · exact h.2 e he1 hm

theorem scan_fallback (r : Value → Int) (col : Int) (hr : ∀ v, isInt (r v)) :
    ∀ (xs : List Loc) (cur x : Loc),
      (x :: xs).Pairwise (fun a b => column r b ≤ column r a) →
      (∀ e ∈ x :: xs, ¬ col ≥ column r e - 1) →
      ∀ e ∈ x :: xs, column r (scan r col cur (x :: xs)) ≤ column r e := by
  intro xs
  induction xs with
  | nil =>
    intro cur x _ _ e he
    have hs : scan r col cur [x] = x := by simp [scan]
    have : e = x := by simpa using he
    rw [hs, this]
  | cons y ys ih =>
    intro cur x hp hno e he
    have hpx := List.pairwise_cons.mp hp
    have hstop : ¬ scanStop r col x = true := fun hs =>
      hno x (List.mem_cons_self _ _) (scanStop_imp r col hr x hs)
    rw [scan, if_neg hstop]
    have h := ih x y hpx.2 (fun e1 he1 => hno e1 (List.mem_cons_of_mem _ he1))
    rcases List.mem_cons.mp he with rfl | he1
    · exact hpx.1 _ (scan_cons_mem r col ys e y)
    · exact h e he1

/-- What the selector does on a non-empty `locs`: it scans a rearrangement of `locs`
whose columns do not increase. -/
theorem selector_spec (r : Value → Int) (S : Sorter (Less r)) (col : Int)
    (locs : List Loc) (hne : locs ≠ []) :
    ∃ x xs, (x :: xs).Perm locs ∧
      (x :: xs).Pairwise (fun a b => column r b ≤ column r a) ∧
      selector r S col locs = some (scan r col [] (x :: xs)) := by
  have hlen : ¬ locs.length = 0 := fun h => hne (List.length_eq_zero.mp h)
  by_cases h1 : locs.length > 1
  · have hperm := S.perm locs
    have hord := S.ordered locs
    cases hs : S.sort locs with
    | nil =>
      rw [hs] at hperm
      exact absurd hperm.symm.eq_nil hne
    | cons x xs =>
      rw [hs] at hperm hord
      refine ⟨x, xs, hperm, ?_, ?_⟩
      · exact hord.imp (fun {a b} hab => (Less_eq_false_iff r a b).mp hab)
      · simp [selector, hlen, h1, hs]
  · match locs, hne, h1 with
    | [x], _, _ =>
      exact ⟨x, [], List.Perm.refl _, List.pairwise_singleton _ _, by simp [selector]⟩
    | x :: y :: ys, _, h1 => simp at h1

theorem mem_sameLine (r : Value → Int) (line : Int) (result : List Loc) (e : Loc) :
    e ∈ sameLine r line result ↔ e ∈ result ∧ onLine r line e = true := by
  simp [sameLine, List.mem_filter]

/-! ## The selector -/

/-- C1: in a pass whose guards succeed, for every location list and cursor position,
if some entry on the cursor's line has a column `c` with `col >= c - 1`, the entry the
selector picks is on the cursor's line, satisfies `col >= c - 1`, and no same-line entry
that satisfies it has a larger column.  The selector is applied to `sameLine`, which is
what the counting loop of `update` leaves in `locs` (`aggregate_locs`); the stored popup
state plays no part in the choice.  `hr` is the return type of `reflectToInt`, a Go
`int`. -/
theorem selector_picks_largest_reached (r : Value → Int) (S : Sorter (Less r))
    (result : List Loc) (line col : Int) (hr : ∀ v, isInt (r v))
    (hex : ∃ e ∈ result, onLine r line e = true ∧ col ≥ column r e - 1) :
    ∃ p, selector r S col (sameLine r line result) = some p ∧
      p ∈ result ∧ onLine r line p = true ∧ col ≥ column r p - 1 ∧
      ∀ e ∈ result, onLine r line e = true → col ≥ column r e - 1 →
        column r e ≤ column r p := by
  obtain ⟨e0, he0, hl0, hm0⟩ := hex
  have hmem0 : e0 ∈ sameLine r line result := (mem_sameLine r line result e0).mpr ⟨he0, hl0⟩
  have hne : sameLine r line result ≠ [] := List.ne_nil_of_mem hmem0
  obtain ⟨x, xs, hperm, hord, hsel⟩ := selector_spec r S col (sameLine r line result) hne
  have hscan := scan_reached r col hr xs [] x hord ⟨e0, hperm.mem_iff.mpr hmem0, hm0⟩
  have hp := (mem_sameLine r line result _).mp
    (hperm.mem_iff.mp (scan_cons_mem r col xs [] x))
  refine ⟨scan r col [] (x :: xs), hsel, hp.1, hp.2, hscan.1, ?_⟩
  intro e he hl hm
  exact hscan.2 e (hperm.mem_iff.mpr ((mem_sameLine r line result e).mpr ⟨he, hl⟩)) hm

/-- The tie-break example: columns 10, 5, 2 and cursor column 6 select column 5. -/
theorem selector_picks_largest_reached_witness :
    (∀ v, isInt (reflectToIntModel v)) ∧
    (∃ e ∈ tieBreakList, onLine reflectToIntModel 1 e = true ∧
      (6 : Int) ≥ column reflectToIntModel e - 1) ∧
    selector reflectToIntModel (goSorter reflectToIntModel) 6
      (sameLine reflectToIntModel 1 tieBreakList) = some (entry 1 5 "W" "b") ∧
    ∃ p, selector reflectToIntModel (goSorter reflectToIntModel) 6
        (sameLine reflectToIntModel 1 tieBreakList) = some p ∧
      p ∈ tieBreakList ∧ onLine reflectToIntModel 1 p = true ∧
      (6 : Int) ≥ column reflectToIntModel p - 1 ∧
      ∀ e ∈ tieBreakList, onLine reflectToIntModel 1 e = true →
        (6 : Int) ≥ column reflectToIntModel e - 1 →
        column reflectToIntModel e ≤ column reflectToIntModel p :=
  ⟨reflectToIntModel_isInt,
   ⟨entry 1 5 "W" "b", by decide, by decide, by decide⟩,
   by decide,
   selector_picks_largest_reached reflectToIntModel (goSorter reflectToIntModel)
     tieBreakList 1 6 reflectToIntModel_isInt
     ⟨entry 1 5 "W" "b", by decide, by decide, by decide⟩⟩

/-- C2: in a pass whose guards succeed, for every location list and cursor position,
if there is an entry on the cursor's line and no same-line entry has a column `c` with
`col >= c - 1`, the selector picks a same-line entry whose column is the smallest of all
same-line entries.  `hr` is the return type of `reflectToInt`, a Go `int`. -/
theorem selector_fallback_smallest (r : Value → Int) (S : Sorter (Less r))
    (result : List Loc) (line col : Int) (hr : ∀ v, isInt (r v))
    (hne : ∃ e ∈ result, onLine r line e = true)
    (hno : ∀ e ∈ result, onLine r line e = true → ¬ col ≥ column r e - 1) :
    ∃ p, selector r S col (sameLine r line result) = some p ∧
      p ∈ result ∧ onLine r line p = true ∧
      ∀ e ∈ result, onLine r line e = true → column r p ≤ column r e := by
  obtain ⟨e0, he0, hl0⟩ := hne
  have hmem0 : e0 ∈ sameLine r line result := (mem_sameLine r line result e0).mpr ⟨he0, hl0⟩
  have hne1 : sameLine r line result ≠ [] := List.ne_nil_of_mem hmem0
  obtain ⟨x, xs, hperm, hord, hsel⟩ := selector_spec r S col (sameLine r line result) hne1
  have hno1 : ∀ e ∈ x :: xs, ¬ col ≥ column r e - 1 := by
    intro e he
    have h := (mem_sameLine r line result e).mp (hperm.mem_iff.mp he)
    exact hno e h.1 h.2
  have hscan := scan_fallback r col hr xs [] x hord hno1
  have hp := (mem_sameLine r line result _).mp
    (hperm.mem_iff.mp (scan_cons_mem r col xs [] x))
  refine ⟨scan r col [] (x :: xs), hsel, hp.1, hp.2, ?_⟩
  intro e he hl
  exact hscan e (hperm.mem_iff.mpr ((mem_sameLine r line result e).mpr ⟨he, hl⟩))

/-- The fallback example: columns 10, 8 and cursor column 1 select column 8. -/
theorem selector_fallback_smallest_witness :
    (∀ v, isInt (reflectToIntModel v)) ∧
    (∃ e ∈ fallbackList, onLine reflectToIntModel 1 e = true) ∧
    (∀ e ∈ fallbackList, onLine reflectToIntModel 1 e = true →
      ¬ (1 : Int) ≥ column reflectToIntModel e - 1) ∧
    selector reflectToIntModel (goSorter reflectToIntModel) 1
      (sameLine reflectToIntModel 1 fallbackList) = some (entry 1 8 "W" "b") ∧
    ∃ p, selector reflectToIntModel (goSorter reflectToIntModel) 1
        (sameLine reflectToIntModel 1 fallbackList) = some p ∧
      p ∈ fallbackList ∧ onLine reflectToIntModel 1 p = true ∧
      ∀ e ∈ fallbackList, onLine reflectToIntModel 1 e = true →
        column reflectToIntModel p ≤ column reflectToIntModel e :=
  ⟨reflectToIntModel_isInt,
   ⟨entry 1 8 "W" "b", by decide, by decide⟩,
   by decide,
   by decide,
   selector_fallback_smallest reflectToIntModel (goSorter reflectToIntModel)
     fallbackList 1 1 reflectToIntModel_isInt
     ⟨entry 1 8 "W" "b", by decide, by decide⟩ (by decide)⟩

/-! ## The shape of a pass -/

/-- Every early return: the popup is hidden and one notification is emitted. -/
theorem update_of_guards_none (r : Value → Int) (S : Sorter (Less r)) (h : Host)
    (l : Locpopup) (hg : guards h = none) :
    update r S h l = ⟨{ l with shown := false }, [Effect.locpopupSignal], false⟩ := by
  simp [update, hg, deferred]

/-- A pass that reaches the selector and finds `locs` empty. -/
theorem update_of_no_candidate (r : Value → Int) (S : Sorter (Less r)) (h : Host)
    (l : Locpopup) (pos : Int × Int) (result : List Loc) (t : Tally)
    (hg : guards h = some (pos, result)) (ha : aggregate r pos.1 result = some t)
    (hs : selector r S pos.2 t.locs = none) :
    update r S h l = ⟨{ l with shown := false },
      [Effect.lintRedraw t.errors t.warnings, Effect.locpopupSignal], false⟩ := by
  simp [update, hg, ha, hs, deferred]

/-- A pass that selects an entry with a string category and a string text. -/
theorem update_of_candidate (r : Value → Int) (S : Sorter (Less r)) (h : Host)
    (l : Locpopup) (pos : Int × Int) (result : List Loc) (t : Tally) (p : Loc)
    (c txt : String)
    (hg : guards h = some (pos, result)) (ha : aggregate r pos.1 result = some t)
    (hs : selector r S pos.2 t.locs = some p)
    (hc : index p "type" = Value.str c) (ht : index p "text" = Value.str txt) :
    update r S h l =
      if c ≠ l.typeText ∨ txt ≠ l.contentText ∨ true ≠ l.shown then
        ⟨⟨c, txt, true⟩, [Effect.lintRedraw t.errors t.warnings, Effect.locpopupSignal], false⟩
      else ⟨l, [Effect.lintRedraw t.errors t.warnings], false⟩ := by
  simp only [update, hg, ha, hs, hc, ht, asString]
  split <;> simp [deferred]

/-- A pass either hides the popup, with one notification after its other effects, or
shows one and the same candidate whatever the stored state is. -/
theorem update_cases (r : Value → Int) (S : Sorter (Less r)) (h : Host) :
    (∃ eff pk, notifications eff = 0 ∧
      ∀ l, update r S h l =
        ⟨{ l with shown := false }, eff ++ [Effect.locpopupSignal], pk⟩) ∨
    (∃ c txt eff, notifications eff = 0 ∧
      ∀ l, update r S h l =
        if c ≠ l.typeText ∨ txt ≠ l.contentText ∨ true ≠ l.shown then
          ⟨⟨c, txt, true⟩, eff ++ [Effect.locpopupSignal], false⟩
        else ⟨l, eff, false⟩) := by
  cases hg : guards h with
  | none =>
    exact Or.inl ⟨[], false, by simp [notifications], fun l => by simp [update, hg, deferred]⟩
  | some pr =>
    obtain ⟨pos, result⟩ := pr
    cases ha : aggregate r pos.1 result with
    | none =>
      exact Or.inl ⟨[], true, by simp [notifications],
        fun l => by simp [update, hg, ha, deferred]⟩
    | some t =>
      cases hs : selector r S pos.2 t.locs with
      | none =>
        exact Or.inl ⟨[Effect.lintRedraw t.errors t.warnings], false,
          by simp [notifications], fun l => by simp [update, hg, ha, hs, deferred]⟩
      | some p =>
        cases hc : asString (index p "type") with
        | none =>
          exact Or.inl ⟨[Effect.lintRedraw t.errors t.warnings], true,
            by simp [notifications], fun l => by simp [update, hg, ha, hs, hc, deferred]⟩
        | some c =>
          cases ht : asString (index p "text") with
          | none =>
            exact Or.inl ⟨[Effect.lintRedraw t.errors t.warnings], true,
              by simp [notifications],
              fun l => by simp [update, hg, ha, hs, hc, ht, deferred]⟩
          | some txt =>
            refine Or.inr ⟨c, txt, [Effect.lintRedraw t.errors t.warnings],
              by simp [notifications], fun l => ?_⟩
            simp only [update, hg, ha, hs, hc, ht]
            split <;> simp [deferred]

/-- A pass whose counting loop completes forwards the counts before anything else. -/
theorem update_effects_head (r : Value → Int) (S : Sorter (Less r)) (h : Host)
    (l : Locpopup) (pos : Int × Int) (result : List Loc) (t : Tally)
    (hg : guards h = some (pos, result)) (ha : aggregate r pos.1 result = some t) :
    ∃ rest, (update r S h l).effects = Effect.lintRedraw t.errors t.warnings :: rest := by
  cases hs : selector r S pos.2 t.locs with
  | none => exact ⟨[Effect.locpopupSignal], by simp [update, hg, ha, hs, deferred]⟩
  | some p =>
    cases hc : asString (index p "type") with
    | none => exact ⟨[Effect.locpopupSignal], by simp [update, hg, ha, hs, hc, deferred]⟩
    | some c =>
      cases ht : asString (index p "text") with
      | none =>
        exact ⟨[Effect.locpopupSignal], by simp [update, hg, ha, hs, hc, ht, deferred]⟩
      | some txt =>
        by_cases hch : c ≠ l.typeText ∨ txt ≠ l.contentText ∨ true ≠ l.shown
        · exact ⟨[Effect.locpopupSignal], by
            simp only [update, hg, ha, hs, hc, ht, if_pos hch]
            simp [deferred]⟩
        · exact ⟨[], by
            simp only [update, hg, ha, hs, hc, ht, if_neg hch]
            simp [deferred]⟩

/-! ## The counts -/

theorem tallyLoop_counts (r : Value → Int) (line : Int) (result : List Loc)
    (hty : ∀ e ∈ result, index e "lnum" ≠ Value.nil → ∃ s, index e "type" = Value.str s) :
    ∀ acc, ∃ t, tallyLoop r line acc result = some t ∧
      t.errors = acc.errors + countCategory "E" result ∧
      t.warnings = acc.warnings + countCategory "W" result := by
  induction result with
  | nil =>
    intro acc
    exact ⟨acc, rfl, by simp [countCategory], by simp [countCategory]⟩
  | cons loc rest ih =>
    intro acc
    have hrest : ∀ e ∈ rest, index e "lnum" ≠ Value.nil →
        ∃ s, index e "type" = Value.str s :=
      fun e he => hty e (List.mem_cons_of_mem _ he)
    by_cases hn : index loc "lnum" = Value.nil
    · obtain ⟨t, h1, h2, h3⟩ := ih hrest acc
      refine ⟨t, ?_, ?_, ?_⟩
      · simp [tallyLoop, tallyStep, hn, h1]
      · simp [countCategory, List.countP_cons, hasLnum, hn] at h2 ⊢
        exact h2
      · simp [countCategory, List.countP_cons, hasLnum, hn] at h3 ⊢
        exact h3
    · obtain ⟨s, hs⟩ := hty loc (List.mem_cons_self _ _) hn
      by_cases hE : s = "E"
      · subst hE
        obtain ⟨t, h1, h2, h3⟩ := ih hrest
          ⟨acc.errors + 1, acc.warnings,
            if r (index loc "lnum") = line then acc.locs ++ [loc] else acc.locs⟩
        refine ⟨t, ?_, ?_, ?_⟩
        · simp [tallyLoop, tallyStep, hn, hs, asString, h1]
        · simp [countCategory, List.countP_cons, hasLnum, hasCategory, hn, hs] at h2 ⊢
          omega
        · simp [countCategory, List.countP_cons, hasLnum, hasCategory, hn, hs] at h3 ⊢
          omega
      · by_cases hW : s = "W"
        · subst hW
          obtain ⟨t, h1, h2, h3⟩ := ih hrest
            ⟨acc.errors, acc.warnings + 1,
              if r (index loc "lnum") = line then acc.locs ++ [loc] else acc.locs⟩
          refine ⟨t, ?_, ?_, ?_⟩
          · simp [tallyLoop, tallyStep, hn, hs, asString, h1]
          · simp [countCategory, List.countP_cons, hasLnum, hasCategory, hn, hs] at h2 ⊢
            omega
          · simp [countCategory, List.countP_cons, hasLnum, hasCategory, hn, hs] at h3 ⊢
            omega
        · obtain ⟨t, h1, h2, h3⟩ := ih hrest
            ⟨acc.errors, acc.warnings,
              if r (index loc "lnum") = line then acc.locs ++ [loc] else acc.locs⟩
          refine ⟨t, ?_, ?_, ?_⟩
          · simp [tallyLoop, tallyStep, hn, hs, asString, hE, hW, h1]
          · simp [countCategory, List.countP_cons, hasLnum, hasCategory, hn, hs, hE]
              at h2 ⊢
            omega
          · simp [countCategory, List.countP_cons, hasLnum, hasCategory, hn, hs, hW]
              at h3 ⊢
            omega

/-- The counting loop completes on a list whose entries with a line number have a
string category, and counts exactly those entries. -/
theorem aggregate_counts (r : Value → Int) (line : Int) (result : List Loc)
    (hty : ∀ e ∈ result, index e "lnum" ≠ Value.nil → ∃ s, index e "type" = Value.str s) :
    ∃ t, aggregate r line result = some t ∧
      t.errors = countCategory "E" result ∧ t.warnings = countCategory "W" result ∧
      t.locs = sameLine r line result := by
  obtain ⟨t, h1, h2, h3⟩ := tallyLoop_counts r line result hty ⟨0, 0, []⟩
  exact ⟨t, h1, by simpa using h2, by simpa using h3, aggregate_locs r line result t h1⟩

theorem count_conservation (result : List Loc) :
    countCategory "E" result + countCategory "W" result + countOther result
      = result.countP hasLnum := by
  induction result with
  | nil => simp [countCategory, countOther]
  | cons loc rest ih =>
    simp only [countCategory, countOther, hasCategory, List.countP_cons] at ih ⊢
    by_cases hn : hasLnum loc = true
    · by_cases hE : index loc "type" = Value.str "E"
      · simp [hn, hE]
        omega
      · by_cases hW : index loc "type" = Value.str "W"
        · simp [hn, hW]
          omega
        · simp [hn, hE, hW]
          omega
    · simp [hn]
      omega

/-! ## The pass as a whole -/

/-- On a location list whose entries with a line number all have a string category, a
pass whose guards succeed and that has exactly one entry `e` on the cursor's line, with
category `c` and text `txt`, selects `e` and ends with the popup visible with `c` and
`txt`, for every stored popup state and every cursor column. -/
theorem single_entry_shown (r : Value → Int) (S : Sorter (Less r)) (h : Host)
    (l : Locpopup) (pos : Int × Int) (result : List Loc) (e : Loc) (c txt : String)
    (hg : guards h = some (pos, result))
    (hone : sameLine r pos.1 result = [e])
    (hty : ∀ x ∈ result, index x "lnum" ≠ Value.nil → ∃ s, index x "type" = Value.str s)
    (hc : index e "type" = Value.str c) (ht : index e "text" = Value.str txt) :
    selector r S pos.2 (sameLine r pos.1 result) = some e ∧
      (update r S h l).state = ⟨c, txt, true⟩ ∧ (update r S h l).panicked = false := by
  obtain ⟨t, ha, _, _, hlocs⟩ := aggregate_counts r pos.1 result hty
  have hsel : selector r S pos.2 (sameLine r pos.1 result) = some e := by
    rw [hone]
    simp [selector, scan]
  have hsel1 : selector r S pos.2 t.locs = some e := by rw [hlocs]; exact hsel
  have hu := update_of_candidate r S h l pos result t e c txt hg ha hsel1 hc ht
  refine ⟨hsel, ?_, ?_⟩
  · rw [hu]
    split
    · rfl
    · rename_i hsame
      simp only [not_or, not_not] at hsame
      obtain ⟨h1, h2, h3⟩ := hsame
      cases l
      simp_all
  · rw [hu]
    split <;> rfl

/-- The single-entry example of the specification, with the cursor at column 7. -/
theorem single_entry_shown_witness :
    guards (normalHost 3 7 [entry 3 4 "E" "bad"]) = some ((3, 7), [entry 3 4 "E" "bad"]) ∧
    sameLine reflectToIntModel 3 [entry 3 4 "E" "bad"] = [entry 3 4 "E" "bad"] ∧
    (update reflectToIntModel (goSorter reflectToIntModel)
      (normalHost 3 7 [entry 3 4 "E" "bad"]) ⟨"W", "old", false⟩).state
        = ⟨"E", "bad", true⟩ :=
  ⟨by decide, by decide,
   (single_entry_shown reflectToIntModel (goSorter reflectToIntModel)
     (normalHost 3 7 [entry 3 4 "E" "bad"]) ⟨"W", "old", false⟩ (3, 7)
     [entry 3 4 "E" "bad"] (entry 3 4 "E" "bad") "E" "bad" (by decide) (by decide)
     (by
       intro x hx _
       have hx1 : x = entry 3 4 "E" "bad" := by simpa using hx
       exact ⟨"E", by rw [hx1]; decide⟩)
     (by decide) (by decide)).2.1⟩

/-- C3, at a list with exactly one entry on the cursor's line (line 3, column 4,
category "E", text "bad") and an entry of line 5 without category, with the cursor at
(3, 7) and a visible popup {"W", "old"}: the one same-line entry is what the selector
would pick, but the counting loop panics on the second entry before the selection; the
pass ends with visible = false and the old strings, not with {visible: true, "E",
"bad"}, and no count is forwarded. -/
theorem single_entry_pass_panics :
    guards (normalHost 3 7 singleWithUntyped) = some ((3, 7), singleWithUntyped) ∧
    sameLine reflectToIntModel 3 singleWithUntyped = [entry 3 4 "E" "bad"] ∧
    selector reflectToIntModel (goSorter reflectToIntModel) 7
      (sameLine reflectToIntModel 3 singleWithUntyped) = some (entry 3 4 "E" "bad") ∧
    aggregate reflectToIntModel 3 singleWithUntyped = none ∧
    update reflectToIntModel (goSorter reflectToIntModel)
      (normalHost 3 7 singleWithUntyped) ⟨"W", "old", true⟩
        = ⟨⟨"W", "old", false⟩, [Effect.locpopupSignal], true⟩ ∧
    (update reflectToIntModel (goSorter reflectToIntModel)
      (normalHost 3 7 singleWithUntyped) ⟨"W", "old", true⟩).state
        ≠ ⟨"E", "bad", true⟩ := by
  refine ⟨by decide, by decide, by decide, by decide, by decide, by decide⟩

/-- C4, at a host whose buffer is a terminal and a popup that is already hidden: each
of the two passes emits a notification, so the second pass does not emit none. -/
theorem second_pass_notifies_again :
    ¬ (notifications (update reflectToIntModel (goSorter reflectToIntModel) terminalHost
          ⟨"", "", false⟩).effects
        + notifications (update reflectToIntModel (goSorter reflectToIntModel) terminalHost
          (update reflectToIntModel (goSorter reflectToIntModel) terminalHost
            ⟨"", "", false⟩).state).effects ≤ 1
      ∧ notifications (update reflectToIntModel (goSorter reflectToIntModel) terminalHost
          (update reflectToIntModel (goSorter reflectToIntModel) terminalHost
            ⟨"", "", false⟩).state).effects = 0) := by
  decide

/-- C4, amended: for every host response and stored popup state, when the pass is run
twice against the same host response, the second pass leaves the popup state as the
first left it; when the first pass ends with the popup visible, the second pass emits no
notification and the two together at most one; when the first pass ends with the popup
hidden, each of the two passes emits exactly one notification. -/
theorem second_pass_same_state (r : Value → Int) (S : Sorter (Less r)) (h : Host)
    (l : Locpopup) :
    (update r S h (update r S h l).state).state = (update r S h l).state ∧
    ((update r S h l).state.shown = true →
      notifications (update r S h (update r S h l).state).effects = 0 ∧
      notifications (update r S h l).effects
        + notifications (update r S h (update r S h l).state).effects ≤ 1) ∧
    ((update r S h l).state.shown = false →
      notifications (update r S h l).effects = 1 ∧
      notifications (update r S h (update r S h l).state).effects = 1) := by
  rcases update_cases r S h with ⟨eff, pk, he, hu⟩ | ⟨c, txt, eff, he, hu⟩
  · have hn : notifications (eff ++ [Effect.locpopupSignal]) = 1 := by
      simp only [notifications, List.count_append] at he ⊢
      simp [he]
    rw [hu l, hu _]
    simp [hn]
  · have hn : notifications (eff ++ [Effect.locpopupSignal]) = 1 := by
      simp only [notifications, List.count_append] at he ⊢
      simp [he]
    have h2 : update r S h ⟨c, txt, true⟩ = ⟨⟨c, txt, true⟩, eff, false⟩ := by
      rw [hu]; simp
    by_cases hch : c ≠ l.typeText ∨ txt ≠ l.contentText ∨ true ≠ l.shown
    · have h1 : update r S h l = ⟨⟨c, txt, true⟩, eff ++ [Effect.locpopupSignal], false⟩ := by
        rw [hu l, if_pos hch]
      rw [h1, h2]
      simp [he, hn]
    · have hl : l = ⟨c, txt, true⟩ := by
        simp only [not_or, not_not] at hch
        obtain ⟨a1, a2, a3⟩ := hch
        cases l
        simp_all
      have h1 : update r S h l = ⟨⟨c, txt, true⟩, eff, false⟩ := by
        rw [hl]; exact h2
      rw [h1, h2]
      simp [he]

/-- C5, at a list whose only entry has category "E" and no line number: the pass
forwards an error count of 0, while one entry of the list has category "E". -/
theorem counts_skip_entry_without_lnum :
    (update reflectToIntModel (goSorter reflectToIntModel)
      (normalHost 1 0 [[("type", Value.str "E"), ("text", Value.str "x")]])
      ⟨"", "", false⟩).effects = [Effect.lintRedraw 0 0, Effect.locpopupSignal] ∧
    List.countP (hasCategory "E") [[("type", Value.str "E"), ("text", Value.str "x")]]
      = 1 := by
  decide

/-- C5, amended: for every location list in which each entry that has a line number
has a string category, a pass whose guards succeed forwards first of all to the status
display the number of entries that have a line number and category "E" as the error
count and the number that have a line number and category "W" as the warning count
(an entry without a line number is skipped and not counted); errors + warnings + the
entries with a line number and another category is the number of entries with a line
number; and when every entry has a line number these are the counts over the entire
list. -/
theorem counts_forwarded (r : Value → Int) (S : Sorter (Less r)) (h : Host)
    (l : Locpopup) (pos : Int × Int) (result : List Loc)
    (hg : guards h = some (pos, result))
    (hty : ∀ e ∈ result, index e "lnum" ≠ Value.nil → ∃ s, index e "type" = Value.str s) :
    (∃ rest, (update r S h l).effects
        = Effect.lintRedraw (countCategory "E" result) (countCategory "W" result) :: rest) ∧
    countCategory "E" result + countCategory "W" result + countOther result
      = result.countP hasLnum ∧
    ((∀ e ∈ result, hasLnum e = true) →
      countCategory "E" result = result.countP (hasCategory "E") ∧
      countCategory "W" result = result.countP (hasCategory "W") ∧
      result.countP hasLnum = result.length) := by
  obtain ⟨t, ha, hE, hW, _⟩ := aggregate_counts r pos.1 result hty
  refine ⟨?_, count_conservation result, ?_⟩
  · rw [← hE, ← hW]
    exact update_effects_head r S h l pos result t hg ha
  · intro hall
    refine ⟨?_, ?_, ?_⟩
    · exact List.countP_congr (fun e he => by simp [hall e he])
    · exact List.countP_congr (fun e he => by simp [hall e he])
    · exact List.countP_eq_length.mpr hall

/-- A decidable form of the assertion of the counting loop: each entry that has a line
number has a string category. -/
theorem typed_of_all (result : List Loc)
    (h : result.all (fun e => !hasLnum e || (asString (index e "type")).isSome) = true) :
    ∀ e ∈ result, index e "lnum" ≠ Value.nil → ∃ s, index e "type" = Value.str s := by
  intro e he hn
  have h1 := List.all_eq_true.mp h e he
  simp only [hasLnum, hn, ne_eq, not_false_eq_true, decide_True, Bool.not_true,
    Bool.false_or] at h1
  cases hv : index e "type" with
  | str s => exact ⟨s, rfl⟩
  | nil => simp [hv, asString] at h1
  | bool b => simp [hv, asString] at h1
  | int64 i => simp [hv, asString] at h1
  | uint64 n => simp [hv, asString] at h1

/-- On the mixed list the pass forwards one error and one warning. -/
theorem counts_forwarded_witness :
    guards (normalHost 2 0 mixedList) = some ((2, 0), mixedList) ∧
    (∃ rest, (update reflectToIntModel (goSorter reflectToIntModel)
        (normalHost 2 0 mixedList) ⟨"", "", false⟩).effects
      = Effect.lintRedraw (countCategory "E" mixedList) (countCategory "W" mixedList)
          :: rest) ∧
    countCategory "E" mixedList = 1 ∧ countCategory "W" mixedList = 1 :=
  ⟨by decide,
   (counts_forwarded reflectToIntModel (goSorter reflectToIntModel)
     (normalHost 2 0 mixedList) ⟨"", "", false⟩ (2, 0) mixedList (by decide)
     (typed_of_all mixedList (by decide))).1,
   by decide, by decide⟩

theorem guards_of_terminal (h : Host) (ht : h.buftype = some "terminal") :
    guards h = none := by
  unfold guards
  cases h.currentBuffer <;> simp [ht]

/-- C6, at a terminal buffer and a visible popup: the pass changes the stored state. -/
theorem terminal_changes_visible_state :
    (update reflectToIntModel (goSorter reflectToIntModel) terminalHost
      ⟨"E", "bad", true⟩).state ≠ ⟨"E", "bad", true⟩ := by
  decide

/-- C6, amended: for every stored popup state and every location list, a pass in which
the kind of the current buffer is "terminal" leaves category and text as they were and
ends with visible = false, whatever visible was before, and emits one notification; the
popup state is unchanged exactly when visible was false before the pass. -/
theorem terminal_hides_popup (r : Value → Int) (S : Sorter (Less r)) (h : Host)
    (l : Locpopup) (ht : h.buftype = some "terminal") :
    (update r S h l).state.typeText = l.typeText ∧
    (update r S h l).state.contentText = l.contentText ∧
    (update r S h l).state.shown = false ∧
    notifications (update r S h l).effects = 1 ∧
    ((update r S h l).state = l ↔ l.shown = false) := by
  rw [update_of_guards_none r S h l (guards_of_terminal h ht)]
  refine ⟨rfl, rfl, rfl, by simp [notifications], ?_⟩
  cases l with
  | mk a b c => cases c <;> simp

/-- A terminal buffer hides a visible popup and keeps its strings. -/
theorem terminal_hides_popup_witness :
    terminalHost.buftype = some "terminal" ∧
    (update reflectToIntModel (goSorter reflectToIntModel) terminalHost
      ⟨"E", "bad", true⟩).state.typeText = "E" ∧
    (update reflectToIntModel (goSorter reflectToIntModel) terminalHost
      ⟨"E", "bad", true⟩).state.contentText = "bad" ∧
    (update reflectToIntModel (goSorter reflectToIntModel) terminalHost
      ⟨"E", "bad", true⟩).state.shown = false ∧
    notifications (update reflectToIntModel (goSorter reflectToIntModel) terminalHost
      ⟨"E", "bad", true⟩).effects = 1 :=
  ⟨rfl,
   (terminal_hides_popup reflectToIntModel (goSorter reflectToIntModel)
     terminalHost ⟨"E", "bad", true⟩ rfl).1,
   (terminal_hides_popup reflectToIntModel (goSorter reflectToIntModel)
     terminalHost ⟨"E", "bad", true⟩ rfl).2.1,
   (terminal_hides_popup reflectToIntModel (goSorter reflectToIntModel)
     terminalHost ⟨"E", "bad", true⟩ rfl).2.2.1,
   (terminal_hides_popup reflectToIntModel (goSorter reflectToIntModel)
     terminalHost ⟨"E", "bad", true⟩ rfl).2.2.2.1⟩

theorem guards_of_abort (h : Host)
    (hab : h.currentBuffer = none ∨ h.buftype = none ∨ h.mode = none ∨
      h.currentWindow = none ∨ h.windowCursor = none ∨ h.getloclist = none ∨
      h.buftype = some "terminal" ∨ ∃ m, h.mode = some m ∧ m ≠ "n") :
    guards h = none := by
  unfold guards
  rcases hab with hb | hb | hb | hb | hb | hb | hb | ⟨m, hm, hne⟩
  · simp [hb]
  · cases h.currentBuffer <;> simp [hb]
  · cases h.currentBuffer <;> cases h.buftype <;> simp [hb]
  · cases h.currentBuffer <;> cases h.buftype <;> cases h.mode <;> simp [hb]
  · cases h.currentBuffer <;> cases h.buftype <;> cases h.mode <;>
      cases h.currentWindow <;> simp [hb]
  · cases h.currentBuffer <;> cases h.buftype <;> cases h.mode <;>
      cases h.currentWindow <;> cases h.windowCursor <;> simp [hb]
  · cases h.currentBuffer <;> simp [hb]
  · cases h.currentBuffer <;> cases h.buftype <;> simp [hm, hne]

/-- C7: for every stored popup state, a pass in which a host query fails, or the buffer
kind is "terminal", or the mode is not "n", ends with visible = false, and when visible
was true before the pass a change notification is emitted. -/
theorem abort_hides_popup (r : Value → Int) (S : Sorter (Less r)) (h : Host)
    (l : Locpopup)
    (hab : h.currentBuffer = none ∨ h.buftype = none ∨ h.mode = none ∨
      h.currentWindow = none ∨ h.windowCursor = none ∨ h.getloclist = none ∨
      h.buftype = some "terminal" ∨ ∃ m, h.mode = some m ∧ m ≠ "n") :
    (update r S h l).state.shown = false ∧
    (l.shown = true → notifications (update r S h l).effects = 1) := by
  rw [update_of_guards_none r S h l (guards_of_abort h hab)]
  simp [notifications]

/-- In insert mode a visible popup is hidden and the change is notified. -/
theorem abort_hides_popup_witness :
    (∃ m, insertModeHost.mode = some m ∧ m ≠ "n") ∧
    (update reflectToIntModel (goSorter reflectToIntModel) insertModeHost
      ⟨"E", "bad", true⟩).state.shown = false ∧
    notifications (update reflectToIntModel (goSorter reflectToIntModel) insertModeHost
      ⟨"E", "bad", true⟩).effects = 1 :=
  ⟨⟨"i", rfl, by decide⟩,
   (abort_hides_popup reflectToIntModel (goSorter reflectToIntModel) insertModeHost
     ⟨"E", "bad", true⟩
     (Or.inr (Or.inr (Or.inr (Or.inr (Or.inr (Or.inr (Or.inr
       ⟨"i", rfl, by decide⟩)))))))).1,
   (abort_hides_popup reflectToIntModel (goSorter reflectToIntModel) insertModeHost
     ⟨"E", "bad", true⟩
     (Or.inr (Or.inr (Or.inr (Or.inr (Or.inr (Or.inr (Or.inr
       ⟨"i", rfl, by decide⟩)))))))).2 rfl⟩

/-- C8, at a list with no entry on the cursor's line and a popup that is already
hidden: the pass emits a notification all the same. -/
theorem no_candidate_notifies_when_hidden :
    sameLine reflectToIntModel 1 [entry 2 1 "E" "x"] = [] ∧
    notifications (update reflectToIntModel (goSorter reflectToIntModel)
      (normalHost 1 0 [entry 2 1 "E" "x"]) ⟨"", "", false⟩).effects ≠ 0 := by
  decide

/-- C8, amended: every pass whose guards succeed and that has no location entry on the
cursor's line ends with visible = false and the stored strings as they were, and emits
exactly one change notification, whether visible was true or false before the pass. -/
theorem no_candidate_hides_popup (r : Value → Int) (S : Sorter (Less r)) (h : Host)
    (l : Locpopup) (pos : Int × Int) (result : List Loc)
    (hg : guards h = some (pos, result))
    (hnone : ∀ e ∈ result, onLine r pos.1 e = false) :
    (update r S h l).state = { l with shown := false } ∧
    notifications (update r S h l).effects = 1 := by
  have hs : sameLine r pos.1 result = [] := by
    simp only [sameLine]
    exact List.filter_eq_nil_iff.mpr (fun e he => by simp [hnone e he])
  cases ha : aggregate r pos.1 result with
  | none => simp [update, hg, ha, deferred, notifications]
  | some t =>
    have hsel : selector r S pos.2 t.locs = none := by
      rw [aggregate_locs r pos.1 result t ha, hs]
      simp [selector]
    rw [update_of_no_candidate r S h l pos result t hg ha hsel]
    simp [notifications]

/-- With the only entry on another line, a visible popup is hidden with one
notification. -/
theorem no_candidate_hides_popup_witness :
    guards (normalHost 1 0 [entry 2 1 "E" "x"]) = some ((1, 0), [entry 2 1 "E" "x"]) ∧
    (update reflectToIntModel (goSorter reflectToIntModel)
      (normalHost 1 0 [entry 2 1 "E" "x"]) ⟨"E", "bad", true⟩).state
        = ⟨"E", "bad", false⟩ ∧
    notifications (update reflectToIntModel (goSorter reflectToIntModel)
      (normalHost 1 0 [entry 2 1 "E" "x"]) ⟨"E", "bad", true⟩).effects = 1 :=
  ⟨by decide,
   no_candidate_hides_popup reflectToIntModel (goSorter reflectToIntModel)
     (normalHost 1 0 [entry 2 1 "E" "x"]) ⟨"E", "bad", true⟩ (1, 0) [entry 2 1 "E" "x"]
     (by decide) (by decide)⟩

theorem tallyLoop_none_of_untyped (r : Value → Int) (line : Int) (result : List Loc)
    (hbad : ∃ e ∈ result, index e "lnum" ≠ Value.nil ∧ asString (index e "type") = none) :
    ∀ acc, tallyLoop r line acc result = none := by
  induction result with
  | nil =>
    obtain ⟨e, he, _⟩ := hbad
    simp at he
  | cons loc rest ih =>
    intro acc
    obtain ⟨e, he, hn, hty⟩ := hbad
    rw [tallyLoop]
    cases hstep : tallyStep r line acc loc with
    | none => rfl
    | some acc1 =>
      rcases List.mem_cons.mp he with rfl | he1
      · simp [tallyStep, hn, hty] at hstep
      · exact ih ⟨e, he1, hn, hty⟩ acc1

/-- C9, what the code does instead: whenever the location list of a pass whose guards
succeed contains an entry that has a line number and no string category, the pass
panics in the counting loop; no count is forwarded, and the deferred function has hidden
the popup and emitted its notification. -/
theorem missing_category_panics (r : Value → Int) (S : Sorter (Less r)) (h : Host)
    (l : Locpopup) (pos : Int × Int) (result : List Loc)
    (hg : guards h = some (pos, result))
    (hbad : ∃ e ∈ result, index e "lnum" ≠ Value.nil ∧ asString (index e "type") = none) :
    update r S h l = ⟨{ l with shown := false }, [Effect.locpopupSignal], true⟩ := by
  have ha : aggregate r pos.1 result = none :=
    tallyLoop_none_of_untyped r pos.1 result hbad ⟨0, 0, []⟩
  simp [update, hg, ha, deferred]

/-- The failing input of C9: the only entry of the list has no category. -/
theorem missing_category_panics_witness :
    guards (normalHost 1 0 [untypedEntry]) = some ((1, 0), [untypedEntry]) ∧
    (∃ e ∈ [untypedEntry],
      index e "lnum" ≠ Value.nil ∧ asString (index e "type") = none) ∧
    update reflectToIntModel (goSorter reflectToIntModel) (normalHost 1 0 [untypedEntry])
      ⟨"", "", false⟩ = ⟨⟨"", "", false⟩, [Effect.locpopupSignal], true⟩ :=
  ⟨by decide, ⟨untypedEntry, by decide, by decide, by decide⟩,
   missing_category_panics reflectToIntModel (goSorter reflectToIntModel)
     (normalHost 1 0 [untypedEntry]) ⟨"", "", false⟩ (1, 0) [untypedEntry] (by decide)
     ⟨untypedEntry, by decide, by decide, by decide⟩⟩

/-- C10, at same-line columns 10 and 5 with the cursor at column 8: the selector picks
the entry at column 5, at distance 3, although the entry at column 10 is at distance
2. -/
theorem selector_not_nearest :
    selector reflectToIntModel (goSorter reflectToIntModel) 8
      (sameLine reflectToIntModel 1 nearestList) = some (entry 1 5 "W" "b") ∧
    entry 1 10 "E" "a" ∈ sameLine reflectToIntModel 1 nearestList ∧
    (column reflectToIntModel (entry 1 10 "E" "a") - 8).natAbs
      < (column reflectToIntModel (entry 1 5 "W" "b") - 8).natAbs := by
  decide

/-- C10, amended: for every location list with an entry on the cursor's line and every
cursor column, the entry the selector picks is on that line and is the nearest one at or
before the cursor, entry columns being compared with the cursor column + 1: when some
same-line entry has a column of at most cursor column + 1, so has the picked entry and
no such entry is strictly nearer to cursor column + 1; when every same-line entry has a
larger column, no same-line entry is strictly nearer to the cursor column than the
picked one.  `hr` is the return type of `reflectToInt`, a Go `int`. -/
theorem selector_picks_nearest_at_or_before (r : Value → Int) (S : Sorter (Less r))
    (result : List Loc) (line col : Int) (hr : ∀ v, isInt (r v))
    (hne : ∃ e ∈ result, onLine r line e = true) :
    ∃ p, selector r S col (sameLine r line result) = some p ∧
      p ∈ result ∧ onLine r line p = true ∧
      ((∃ e ∈ result, onLine r line e = true ∧ column r e ≤ col + 1) →
        column r p ≤ col + 1 ∧
        ∀ e ∈ result, onLine r line e = true → column r e ≤ col + 1 →
          ¬ (col + 1 - column r e).natAbs < (col + 1 - column r p).natAbs) ∧
      ((∀ e ∈ result, onLine r line e = true → ¬ column r e ≤ col + 1) →
        ∀ e ∈ result, onLine r line e = true →
          ¬ (column r e - col).natAbs < (column r p - col).natAbs) := by
  obtain ⟨e0, he0, hl0⟩ := hne
  have hmem0 : e0 ∈ sameLine r line result := (mem_sameLine r line result e0).mpr ⟨he0, hl0⟩
  have hne1 : sameLine r line result ≠ [] := List.ne_nil_of_mem hmem0
  obtain ⟨x, xs, hperm, hord, hsel⟩ := selector_spec r S col (sameLine r line result) hne1
  have hin : ∀ e, e ∈ result → onLine r line e = true → e ∈ x :: xs := fun e he hl =>
    hperm.mem_iff.mpr ((mem_sameLine r line result e).mpr ⟨he, hl⟩)
  have hp := (mem_sameLine r line result _).mp
    (hperm.mem_iff.mp (scan_cons_mem r col xs [] x))
  refine ⟨scan r col [] (x :: xs), hsel, hp.1, hp.2, ?_, ?_⟩
  · rintro ⟨e1, he1, hl1, hc1⟩
    have hscan := scan_reached r col hr xs [] x hord ⟨e1, hin e1 he1 hl1, by omega⟩
    refine ⟨by have := hscan.1; omega, ?_⟩
    intro e he hl hc
    have h1 := hscan.2 e (hin e he hl) (by omega)
    have h2 := hscan.1
    omega
  · intro hno e he hl
    have hno1 : ∀ e ∈ x :: xs, ¬ col ≥ column r e - 1 := by
      intro e2 he2
      have h2 := (mem_sameLine r line result e2).mp (hperm.mem_iff.mp he2)
      have := hno e2 h2.1 h2.2
      omega
    have h1 := scan_fallback r col hr xs [] x hord hno1 e (hin e he hl)
    have h2 := hno1 _ (scan_cons_mem r col xs [] x)
    omega

/-- At same-line columns 10 and 5 with the cursor at column 8 the entry at column 5 is
the nearest at or before the cursor. -/
theorem selector_picks_nearest_at_or_before_witness :
    (∀ v, isInt (reflectToIntModel v)) ∧
    (∃ e ∈ nearestList, onLine reflectToIntModel 1 e = true) ∧
    ∃ p, selector reflectToIntModel (goSorter reflectToIntModel) 8
        (sameLine reflectToIntModel 1 nearestList) = some p ∧
      p ∈ nearestList ∧ onLine reflectToIntModel 1 p = true ∧
      ((∃ e ∈ nearestList, onLine reflectToIntModel 1 e = true ∧
          column reflectToIntModel e ≤ 8 + 1) →
        column reflectToIntModel p ≤ 8 + 1 ∧
        ∀ e ∈ nearestList, onLine reflectToIntModel 1 e = true →
          column reflectToIntModel e ≤ 8 + 1 →
          ¬ (8 + 1 - column reflectToIntModel e).natAbs
            < (8 + 1 - column reflectToIntModel p).natAbs) ∧
      ((∀ e ∈ nearestList, onLine reflectToIntModel 1 e = true →
          ¬ column reflectToIntModel e ≤ 8 + 1) →
        ∀ e ∈ nearestList, onLine reflectToIntModel 1 e = true →
          ¬ (column reflectToIntModel e - 8).natAbs
            < (column reflectToIntModel p - 8).natAbs) :=
  ⟨reflectToIntModel_isInt,
   ⟨entry 1 5 "W" "b", by decide, by decide⟩,
   selector_picks_nearest_at_or_before reflectToIntModel (goSorter reflectToIntModel)
     nearestList 1 8 reflectToIntModel_isInt ⟨entry 1 5 "W" "b", by decide, by decide⟩⟩

/-! ## Empty list, candidate, frame -/

/-- C11: for every cursor position and stored popup state, a pass whose guards succeed
and whose location list has no entry forwards the counts errors = 0 and warnings = 0,
finds no candidate, and ends with visible = false. -/
theorem empty_list_hides_popup (r : Value → Int) (S : Sorter (Less r)) (h : Host)
    (l : Locpopup) (pos : Int × Int) (hg : guards h = some (pos, [])) :
    aggregate r pos.1 [] = some ⟨0, 0, []⟩ ∧
    selector r S pos.2 [] = none ∧
    (update r S h l).effects = [Effect.lintRedraw 0 0, Effect.locpopupSignal] ∧
    (update r S h l).state.shown = false ∧
    (update r S h l).panicked = false := by
  have ha : aggregate r pos.1 [] = some ⟨0, 0, []⟩ := rfl
  have hs : selector r S pos.2 [] = none := by simp [selector]
  have hu := update_of_no_candidate r S h l pos [] ⟨0, 0, []⟩ hg ha hs
  refine ⟨ha, hs, ?_, ?_, ?_⟩ <;> rw [hu]

/-- With an empty location list a visible popup is hidden and the counts 0, 0 are
forwarded. -/
theorem empty_list_hides_popup_witness :
    guards (normalHost 4 2 []) = some ((4, 2), []) ∧
    (update reflectToIntModel (goSorter reflectToIntModel) (normalHost 4 2 [])
      ⟨"E", "bad", true⟩).effects = [Effect.lintRedraw 0 0, Effect.locpopupSignal] ∧
    (update reflectToIntModel (goSorter reflectToIntModel) (normalHost 4 2 [])
      ⟨"E", "bad", true⟩).state.shown = false :=
  ⟨by decide,
   (empty_list_hides_popup reflectToIntModel (goSorter reflectToIntModel)
     (normalHost 4 2 []) ⟨"E", "bad", true⟩ (4, 2) (by decide)).2.2.1,
   (empty_list_hides_popup reflectToIntModel (goSorter reflectToIntModel)
     (normalHost 4 2 []) ⟨"E", "bad", true⟩ (4, 2) (by decide)).2.2.2.1⟩

/-- C13: for every pass that finds a candidate (the guards succeed, the counting loop
completes, the selector picks an entry with category `c` and text `txt`) and every
stored popup state `l`: when `l` is already `{visible: true, category: c, text: txt}`
the state is unchanged and no notification is emitted; otherwise the stored state is
replaced by `{visible: true, category: c, text: txt}` and exactly one notification is
emitted. -/
theorem candidate_replaces_or_keeps (r : Value → Int) (S : Sorter (Less r)) (h : Host)
    (l : Locpopup) (pos : Int × Int) (result : List Loc) (t : Tally) (p : Loc)
    (c txt : String)
    (hg : guards h = some (pos, result)) (ha : aggregate r pos.1 result = some t)
    (hs : selector r S pos.2 t.locs = some p)
    (hc : index p "type" = Value.str c) (ht : index p "text" = Value.str txt) :
    (l = ⟨c, txt, true⟩ →
      (update r S h l).state = l ∧ notifications (update r S h l).effects = 0) ∧
    (l ≠ ⟨c, txt, true⟩ →
      (update r S h l).state = ⟨c, txt, true⟩ ∧
      notifications (update r S h l).effects = 1) := by
  have hu := update_of_candidate r S h l pos result t p c txt hg ha hs hc ht
  constructor
  · intro hl
    have hno : ¬ (c ≠ l.typeText ∨ txt ≠ l.contentText ∨ true ≠ l.shown) := by
      rw [hl]; simp
    rw [hu, if_neg hno]
    exact ⟨rfl, by simp [notifications]⟩
  · intro hl
    have hch : c ≠ l.typeText ∨ txt ≠ l.contentText ∨ true ≠ l.shown := by
      by_contra hno
      simp only [not_or, not_not] at hno
      obtain ⟨a1, a2, a3⟩ := hno
      apply hl
      cases l
      simp_all
    rw [hu, if_pos hch]
    exact ⟨rfl, by simp [notifications]⟩

/-- The single-entry example: shown again, nothing is emitted; shown over another
state, the state is replaced with one notification. -/
theorem candidate_replaces_or_keeps_witness :
    guards (normalHost 3 7 [entry 3 4 "E" "bad"]) = some ((3, 7), [entry 3 4 "E" "bad"]) ∧
    aggregate reflectToIntModel 3 [entry 3 4 "E" "bad"]
      = some ⟨1, 0, [entry 3 4 "E" "bad"]⟩ ∧
    selector reflectToIntModel (goSorter reflectToIntModel) 7 [entry 3 4 "E" "bad"]
      = some (entry 3 4 "E" "bad") ∧
    ((update reflectToIntModel (goSorter reflectToIntModel)
        (normalHost 3 7 [entry 3 4 "E" "bad"]) ⟨"E", "bad", true⟩).state
          = ⟨"E", "bad", true⟩ ∧
      notifications (update reflectToIntModel (goSorter reflectToIntModel)
        (normalHost 3 7 [entry 3 4 "E" "bad"]) ⟨"E", "bad", true⟩).effects = 0) ∧
    ((update reflectToIntModel (goSorter reflectToIntModel)
        (normalHost 3 7 [entry 3 4 "E" "bad"]) ⟨"W", "old", true⟩).state
          = ⟨"E", "bad", true⟩ ∧
      notifications (update reflectToIntModel (goSorter reflectToIntModel)
        (normalHost 3 7 [entry 3 4 "E" "bad"]) ⟨"W", "old", true⟩).effects = 1) :=
  ⟨by decide, by decide, by decide,
   (candidate_replaces_or_keeps reflectToIntModel (goSorter reflectToIntModel)
     (normalHost 3 7 [entry 3 4 "E" "bad"]) ⟨"E", "bad", true⟩ (3, 7)
     [entry 3 4 "E" "bad"] ⟨1, 0, [entry 3 4 "E" "bad"]⟩ (entry 3 4 "E" "bad") "E" "bad"
     (by decide) (by decide) (by decide) (by decide) (by decide)).1 rfl,
   (candidate_replaces_or_keeps reflectToIntModel (goSorter reflectToIntModel)
     (normalHost 3 7 [entry 3 4 "E" "bad"]) ⟨"W", "old", true⟩ (3, 7)
     [entry 3 4 "E" "bad"] ⟨1, 0, [entry 3 4 "E" "bad"]⟩ (entry 3 4 "E" "bad") "E" "bad"
     (by decide) (by decide) (by decide) (by decide) (by decide)).2 (by decide)⟩

/-- A pass whose guards succeed and that has no entry on the cursor's line hides the
popup and keeps the stored strings, also when the counting loop panics. -/
theorem update_state_of_no_same_line (r : Value → Int) (S : Sorter (Less r)) (h : Host)
    (l : Locpopup) (pos : Int × Int) (result : List Loc)
    (hg : guards h = some (pos, result))
    (hnone : ∀ e ∈ result, onLine r pos.1 e = false) :
    (update r S h l).state = { l with shown := false } := by
  have hs : sameLine r pos.1 result = [] := by
    simp only [sameLine]
    exact List.filter_eq_nil_iff.mpr (fun e he => by simp [hnone e he])
  cases ha : aggregate r pos.1 result with
  | none => simp [update, hg, ha, deferred]
  | some t =>
    have hsel : selector r S pos.2 t.locs = none := by
      rw [aggregate_locs r pos.1 result t ha, hs]
      simp [selector]
    rw [update_of_no_candidate r S h l pos result t hg ha hsel]

/-- C15: for every stored popup state, a pass that ends without showing a candidate,
because a host query or a guard fails (`guards` returns early) or because no entry is
on the cursor's line, changes at most the visible field: category and text after the
pass are the category and text before it. -/
theorem hidden_pass_keeps_strings (r : Value → Int) (S : Sorter (Less r)) (h : Host)
    (l : Locpopup)
    (hend : guards h = none ∨
      ∃ pos result, guards h = some (pos, result) ∧
        ∀ e ∈ result, onLine r pos.1 e = false) :
    (update r S h l).state.typeText = l.typeText ∧
    (update r S h l).state.contentText = l.contentText := by
  rcases hend with hg | ⟨pos, result, hg, hnone⟩
  · rw [update_of_guards_none r S h l hg]
    exact ⟨rfl, rfl⟩
  · rw [update_state_of_no_same_line r S h l pos result hg hnone]
    exact ⟨rfl, rfl⟩

/-- In insert mode, and with the only entry on another line, the strings of a visible
popup are kept. -/
theorem hidden_pass_keeps_strings_witness :
    guards insertModeHost = none ∧
    (update reflectToIntModel (goSorter reflectToIntModel) insertModeHost
      ⟨"E", "bad", true⟩).state.typeText = "E" ∧
    (update reflectToIntModel (goSorter reflectToIntModel) insertModeHost
      ⟨"E", "bad", true⟩).state.contentText = "bad" ∧
    (update reflectToIntModel (goSorter reflectToIntModel)
      (normalHost 1 0 [entry 2 1 "W" "x"]) ⟨"E", "bad", true⟩).state.typeText = "E" ∧
    (update reflectToIntModel (goSorter reflectToIntModel)
      (normalHost 1 0 [entry 2 1 "W" "x"]) ⟨"E", "bad", true⟩).state.contentText = "bad" :=
  ⟨by decide,
   (hidden_pass_keeps_strings reflectToIntModel (goSorter reflectToIntModel)
     insertModeHost ⟨"E", "bad", true⟩ (Or.inl (by decide))).1,
   (hidden_pass_keeps_strings reflectToIntModel (goSorter reflectToIntModel)
     insertModeHost ⟨"E", "bad", true⟩ (Or.inl (by decide))).2,
   (hidden_pass_keeps_strings reflectToIntModel (goSorter reflectToIntModel)
     (normalHost 1 0 [entry 2 1 "W" "x"]) ⟨"E", "bad", true⟩
     (Or.inr ⟨(1, 0), [entry 2 1 "W" "x"], by decide, by decide⟩)).1,
   (hidden_pass_keeps_strings reflectToIntModel (goSorter reflectToIntModel)
     (normalHost 1 0 [entry 2 1 "W" "x"]) ⟨"E", "bad", true⟩
     (Or.inr ⟨(1, 0), [entry 2 1 "W" "x"], by decide, by decide⟩)).2⟩

/-! ## The order of the scan -/

/-- C14, at seven same-line entries, six at column 5 followed by one at column 9, with
a sort that meets the contract of `sort.Sort` (a pass with gap 6, then insertion sort):
the scan goes through a descending order in which the first entry of column 5 has moved
behind the five others, so the entries of column 5 are not in their original order; with
the cursor at column 5 the entry shown is the second one of the list, not the first. -/
theorem scan_order_not_stable :
    2 ≤ (sameLine reflectToIntModel 1 sevenList).length ∧
    scanOrder reflectToIntModel (gapSorter reflectToIntModel)
        (sameLine reflectToIntModel 1 sevenList)
      = [entry 1 9 "W" "g", entry 1 5 "E" "b", entry 1 5 "E" "c", entry 1 5 "E" "d",
         entry 1 5 "E" "e", entry 1 5 "E" "f", entry 1 5 "E" "a"] ∧
    withColumn reflectToIntModel 5
        (scanOrder reflectToIntModel (gapSorter reflectToIntModel)
          (sameLine reflectToIntModel 1 sevenList))
      ≠ withColumn reflectToIntModel 5 (sameLine reflectToIntModel 1 sevenList) ∧
    selector reflectToIntModel (gapSorter reflectToIntModel) 5
        (sameLine reflectToIntModel 1 sevenList) = some (entry 1 5 "E" "b") := by
  decide

/-- C14, amended: for every list of two or more same-line entries, the order the
selector scans them in is a descending sort by column: the columns do not increase
along the sequence and the sequence is a permutation of the same-line entries.  The
relative order of entries with equal column is left to `sort.Sort`. -/
theorem scan_order_descending_perm (r : Value → Int) (S : Sorter (Less r))
    (locs : List Loc) (h2 : 2 ≤ locs.length) :
    (scanOrder r S locs).Pairwise (fun a b => column r b ≤ column r a) ∧
    (scanOrder r S locs).Perm locs ∧
    ∀ col, selector r S col locs = some (scan r col [] (scanOrder r S locs)) := by
  have h1 : locs.length > 1 := by omega
  have h0 : ¬ locs.length = 0 := by omega
  have hso : scanOrder r S locs = S.sort locs := by simp [scanOrder, h1]
  refine ⟨?_, ?_, ?_⟩
  · rw [hso]
    exact (S.ordered locs).imp (fun {a b} hab => (Less_eq_false_iff r a b).mp hab)
  · rw [hso]
    exact S.perm locs
  · intro col
    simp [selector, scanOrder, h0, h1]

/-- The tie-break example is scanned in the order 10, 5, 2. -/
theorem scan_order_descending_perm_witness :
    2 ≤ tieBreakList.length ∧
    scanOrder reflectToIntModel (goSorter reflectToIntModel) tieBreakList
      = [entry 1 10 "E" "a", entry 1 5 "W" "b", entry 1 2 "E" "c"] ∧
    (scanOrder reflectToIntModel (goSorter reflectToIntModel) tieBreakList).Pairwise
      (fun a b => column reflectToIntModel b ≤ column reflectToIntModel a) ∧
    (scanOrder reflectToIntModel (goSorter reflectToIntModel) tieBreakList).Perm
      tieBreakList :=
  ⟨by decide, by decide,
   (scan_order_descending_perm reflectToIntModel (goSorter reflectToIntModel)
     tieBreakList (by decide)).1,
   (scan_order_descending_perm reflectToIntModel (goSorter reflectToIntModel)
     tieBreakList (by decide)).2.1⟩

/-- C16, at same-line columns 10 and 8 with the cursor at column 1: no entry meets the
scan-stop condition, the fallback selects the entry at column 8, at distance 7, and the
entry at column 10 is strictly farther, at distance 9. -/
theorem fallback_not_farthest :
    (∀ e ∈ fallbackList, onLine reflectToIntModel 1 e = true →
      ¬ (1 : Int) ≥ column reflectToIntModel e - 1) ∧
    selector reflectToIntModel (goSorter reflectToIntModel) 1
      (sameLine reflectToIntModel 1 fallbackList) = some (entry 1 8 "W" "b") ∧
    entry 1 10 "E" "a" ∈ sameLine reflectToIntModel 1 fallbackList ∧
    (column reflectToIntModel (entry 1 8 "W" "b") - 1).natAbs
      < (column reflectToIntModel (entry 1 10 "E" "a") - 1).natAbs := by
  decide

/-- C16, amended: for every location list with an entry on the cursor's line and every
cursor column for which no same-line entry meets the scan-stop condition
`col >= c - 1`, the entry selected by the fallback is the nearest entry: no same-line
entry has a column whose absolute distance to the cursor column is strictly smaller
than that of the selected entry.  `hr` is the return type of `reflectToInt`, a Go
`int`. -/
theorem fallback_picks_nearest (r : Value → Int) (S : Sorter (Less r))
    (result : List Loc) (line col : Int) (hr : ∀ v, isInt (r v))
    (hne : ∃ e ∈ result, onLine r line e = true)
    (hno : ∀ e ∈ result, onLine r line e = true → ¬ col ≥ column r e - 1) :
    ∃ p, selector r S col (sameLine r line result) = some p ∧
      p ∈ result ∧ onLine r line p = true ∧
      ∀ e ∈ result, onLine r line e = true →
        ¬ (column r e - col).natAbs < (column r p - col).natAbs := by
  obtain ⟨e0, he0, hl0⟩ := hne
  have hmem0 : e0 ∈ sameLine r line result := (mem_sameLine r line result e0).mpr ⟨he0, hl0⟩
  have hne1 : sameLine r line result ≠ [] := List.ne_nil_of_mem hmem0
  obtain ⟨x, xs, hperm, hord, hsel⟩ := selector_spec r S col (sameLine r line result) hne1
  have hno1 : ∀ e ∈ x :: xs, ¬ col ≥ column r e - 1 := by
    intro e he
    have h := (mem_sameLine r line result e).mp (hperm.mem_iff.mp he)
    exact hno e h.1 h.2
  have hp := (mem_sameLine r line result _).mp
    (hperm.mem_iff.mp (scan_cons_mem r col xs [] x))
  refine ⟨scan r col [] (x :: xs), hsel, hp.1, hp.2, ?_⟩
  intro e he hl
  have hin : e ∈ x :: xs := hperm.mem_iff.mpr ((mem_sameLine r line result e).mpr ⟨he, hl⟩)
  have h1 := scan_fallback r col hr xs [] x hord hno1 e hin
  have h2 := hno1 _ (scan_cons_mem r col xs [] x)
  omega

/-- At same-line columns 10 and 8 with the cursor at column 1 the fallback selects an
entry that no same-line entry is nearer than. -/
theorem fallback_picks_nearest_witness :
    (∀ v, isInt (reflectToIntModel v)) ∧
    (∃ e ∈ fallbackList, onLine reflectToIntModel 1 e = true) ∧
    (∀ e ∈ fallbackList, onLine reflectToIntModel 1 e = true →
      ¬ (1 : Int) ≥ column reflectToIntModel e - 1) ∧
    ∃ p, selector reflectToIntModel (goSorter reflectToIntModel) 1
        (sameLine reflectToIntModel 1 fallbackList) = some p ∧
      p ∈ fallbackList ∧ onLine reflectToIntModel 1 p = true ∧
      ∀ e ∈ fallbackList, onLine reflectToIntModel 1 e = true →
        ¬ (column reflectToIntModel e - 1).natAbs
          < (column reflectToIntModel p - 1).natAbs :=
  ⟨reflectToIntModel_isInt,
   ⟨entry 1 8 "W" "b", by decide, by decide⟩,
   by decide,
   fallback_picks_nearest reflectToIntModel (goSorter reflectToIntModel)
     fallbackList 1 1 reflectToIntModel_isInt
     ⟨entry 1 8 "W" "b", by decide, by decide⟩ (by decide)⟩

/-! ## The handler -/

/-- C17: for every argument list and every stored popup state, `handle` runs an update
pass when the first argument is the string "update", and only then: on an empty list,
on a first argument that is not a string and on any other event string it leaves the
popup state as it is and emits nothing. -/
theorem handle_runs_update_only (r : Value → Int) (S : Sorter (Less r)) (h : Host)
    (l : Locpopup) :
    (∀ rest, handle r S h l (Value.str "update" :: rest) = update r S h l) ∧
    handle r S h l [] = ⟨l, [], false⟩ ∧
    (∀ first rest, asString first = none →
      handle r S h l (first :: rest) = ⟨l, [], false⟩) ∧
    (∀ event rest, event ≠ "update" →
      handle r S h l (Value.str event :: rest) = ⟨l, [], false⟩) := by
  refine ⟨?_, rfl, ?_, ?_⟩
  · intro rest
    simp [handle, asString]
  · intro first rest hf
    simp [handle, hf]
  · intro event rest hne
    simp [handle, asString, hne]

end Editor
